import Mathlib

/-!
Verification of the Collibra-Bulk-Exporter-To-Neo4j repository.

This file shallow-embeds the parts of the repository that the claims
C1-C10 are about and proves (or refutes) each claim.

Embedded source functions:
* `src/collibra_exporter/utils/cache_manager.py`:
  `CacheEntry.is_expired`, `LRUCache._evict_expired`, `LRUCache._evict_lru`,
  `LRUCache._evict_by_memory`, `LRUCache._remove_entry`, `LRUCache.get`,
  `LRUCache.put`.
* `src/collibra_exporter/api/fetcher.py`: `fetch_data`, `fetch_nested_data`.
* `src/collibra_exporter/processor.py`: `process_data` (its paging loop and
  the per-field nested completion).
* `src/collibra_exporter/utils/http_optimizer.py`:
  `AdaptiveRetryStrategy.get_retry_config`, `HTTPOptimizer.batch_requests`.
* `src/collibra_exporter/api/oauth_auth.py`:
  `OAuthTokenManager.get_valid_token` / `_fetch_new_token`.

Modelling conventions: wall-clock times and TTLs (Python floats obtained
from `time.time()`) are modelled as rationals `ℚ` and every function that
reads the clock takes the current time `now` explicitly.  The byte-size
estimate `CacheEntry._calculate_size` is abstracted by a parameter
`sz : α → Nat` on the cached value type.  Network I/O is modelled by
explicit outcome values (`HttpResult`, `NestedInit`, per-offset failure
oracles) covering the exception paths the Python code catches.
-/

namespace Collibra

/-- `CacheEntry` of `cache_manager.py` (lines 21-58).  `value` is the cached
payload, `timestamp` the creation time, `ttl` the optional time-to-live and
`size_bytes` the estimated size; `__post_init__` sets `last_access` to the
timestamp and `size_bytes` to the estimate of the value, which the
constructor below receives already computed. -/
structure CacheEntry (α : Type) where
  value : α
  timestamp : ℚ
  access_count : Nat
  last_access : ℚ
  ttl : Option ℚ
  size_bytes : Nat
deriving DecidableEq, Repr

/-- `CacheEntry.is_expired` (lines 49-53): expired iff a ttl is set and
`now - timestamp > ttl`. -/
def CacheEntry.is_expired (e : CacheEntry α) (now : ℚ) : Bool :=
  match e.ttl with
  | none => false
  | some t => decide (t < now - e.timestamp)

/-- `LRUCache` state (lines 60-69).  The ordered dictionary `self.cache`
is modelled as an association list whose head is the least recently used
entry and whose last element is the most recently used one. -/
structure LRUCache (α : Type) where
  max_size : Nat
  default_ttl : Option ℚ
  cache : List (String × CacheEntry α)
  total_size : Int
  max_memory_mb : Nat
deriving DecidableEq, Repr

/-- `LRUCache._evict_expired` (lines 71-82): remove every expired entry
(whatever its key), keeping the order of the survivors, and subtract the
removed sizes from `total_size`. -/
def LRUCache.evict_expired (s : LRUCache α) (now : ℚ) : LRUCache α :=
  { s with
    cache := s.cache.filter (fun p => !(p.2.is_expired now)),
    total_size := s.total_size -
      ((s.cache.filter (fun p => p.2.is_expired now)).map
        (fun p => (p.2.size_bytes : Int))).sum }

/-- Loop body of `LRUCache._evict_lru` (lines 84-89): Python pops the
oldest entry while `len(self.cache) >= self.max_size`.  (For
`max_size = 0` Python would raise `KeyError` once the dict is empty; the
structural recursion below simply stops there, and every theorem that
touches this case assumes `0 < max_size`.) -/
def evict_lru_list (ms : Nat) :
    List (String × CacheEntry α) → Int → List (String × CacheEntry α) × Int
  | [], t => ([], t)
  | p :: rest, t =>
    if ms ≤ (p :: rest).length then evict_lru_list ms rest (t - p.2.size_bytes)
    else (p :: rest, t)

/-- `LRUCache._evict_lru` (lines 84-89). -/
def LRUCache.evict_lru (s : LRUCache α) : LRUCache α :=
  let r := evict_lru_list s.max_size s.cache s.total_size
  { s with cache := r.1, total_size := r.2 }

/-- Loop body of `LRUCache._evict_by_memory` (lines 91-99): pop the oldest
entry while `total_size > max_bytes and self.cache`. -/
def evict_memory_list (maxBytes : Int) :
    List (String × CacheEntry α) → Int → List (String × CacheEntry α) × Int
  | [], t => ([], t)
  | p :: rest, t =>
    if maxBytes < t then evict_memory_list maxBytes rest (t - p.2.size_bytes)
    else (p :: rest, t)

/-- `LRUCache._evict_by_memory` (lines 91-99), with
`max_bytes = max_memory_mb * 1024 * 1024`. -/
def LRUCache.evict_by_memory (s : LRUCache α) : LRUCache α :=
  let r := evict_memory_list ((s.max_memory_mb : Int) * 1024 * 1024)
    s.cache s.total_size
  { s with cache := r.1, total_size := r.2 }

/-- `LRUCache._remove_entry` (lines 101-105): if the key is present, pop
its entry and subtract its size. -/
def LRUCache.remove_entry (s : LRUCache α) (key : String) : LRUCache α :=
  match List.lookup key s.cache with
  | none => s
  | some e =>
    { s with
      cache := s.cache.filter (fun p => !(p.1 == key)),
      total_size := s.total_size - e.size_bytes }

/-- `LRUCache.get` (lines 107-128): sweep expired entries, then look the
key up; a hit moves the entry to the most-recently-used end, increments
its access count, stamps `last_access` and returns the value; a miss (or
an entry that expired, line 117, unreachable right after the sweep but
kept from the source) returns `none`.  Returns the value and the mutated
cache state. -/
def LRUCache.get (s : LRUCache α) (now : ℚ) (key : String) :
    Option α × LRUCache α :=
  let s1 := s.evict_expired now
  match List.lookup key s1.cache with
  | none => (none, s1)
  | some e =>
    if e.is_expired now then (none, s1.remove_entry key)
    else
      let e2 := { e with access_count := e.access_count + 1, last_access := now }
      (some e.value,
        { s1 with cache := (s1.cache.filter (fun p => !(p.1 == key))) ++ [(key, e2)] })

/-- `LRUCache.put` (lines 130-165): build the entry (TTL defaulting to
`default_ttl`), reject it unchanged if its size exceeds
`max_memory_mb * 1024 * 1024` bytes, otherwise remove any existing entry
for the key, append the new entry at the most-recently-used end, add its
size, then run the LRU and the memory eviction.  Returns the accepted
flag and the new state. -/
def LRUCache.put (sz : α → Nat) (s : LRUCache α) (now : ℚ) (key : String)
    (value : α) (ttl : Option ℚ) : Bool × LRUCache α :=
  let ttl2 := match ttl with | none => s.default_ttl | some t => some t
  let entry : CacheEntry α :=
    { value := value, timestamp := now, access_count := 0, last_access := now,
      ttl := ttl2, size_bytes := sz value }
  if s.max_memory_mb * 1024 * 1024 < entry.size_bytes then (false, s)
  else
    let s1 := s.remove_entry key
    let s2 := { s1 with
      cache := s1.cache ++ [(key, entry)],
      total_size := s1.total_size + (entry.size_bytes : Int) }
    (true, s2.evict_lru.evict_by_memory)

/-- Outcome of one HTTP request plus JSON decoding, as seen by
`fetch_data` (fetcher.py lines 86-123): the decoded body, a
`requests.RequestException`, or a `json.JSONDecodeError`. -/
inductive HttpResult (γ : Type) where
  | ok (data : γ)
  | netError
  | decodeError
deriving DecidableEq, Repr

/-- `fetch_data` (fetcher.py lines 56-123).  On a cache hit the cached
body is returned; on a miss the network outcome `resp` is inspected: a
network or decode error yields `none` (the exceptions are caught, lines
118-123), a body carrying GraphQL errors yields `none` (lines 107-109),
and otherwise the body is cached with TTL 60 for paginated requests and
300 for first pages (line 113) and returned.  `has_errors` models the
`'errors' in data` test. -/
def fetch_data (sz : γ → Nat) (has_errors : γ → Bool) (cache : LRUCache γ)
    (now : ℚ) (cache_key : String) (paginate : Bool) (resp : HttpResult γ) :
    Option γ × LRUCache γ :=
  match cache.get now cache_key with
  | (some d, c1) => (some d, c1)
  | (none, c1) =>
    match resp with
    | .netError => (none, c1)
    | .decodeError => (none, c1)
    | .ok d =>
      if has_errors d then (none, c1)
      else
        let ttl : ℚ := if paginate then 60 else 300
        (some d, (c1.put sz now cache_key d (some ttl)).2)

/-- The slice of a nested field that the server returns for an
offset/limit query in `fetch_nested_data`: the items of the field from
`offset`, at most `lim` of them. -/
def batch_at (items : List α) (offset lim : Nat) : List α :=
  (items.drop offset).take lim

/-- Outcome of the initial (offset 0) nested fetch of
`fetch_nested_data` (fetcher.py lines 154-178): success, or one of the
three abandon paths of the outer `try` (request/decode exception,
GraphQL errors, no asset in the response), all of which return `None`. -/
inductive NestedInit where
  | ok
  | netError
  | gqlErrors
  | noAssets
deriving DecidableEq, Repr

/-- Pagination loop of `fetch_nested_data` (fetcher.py lines 195-247),
fuel-indexed so that it is structurally recursive (the fuel is spent at
one unit per fetched batch; callers pass `items.length + 1`, which the
lemmas below show is always enough).  `fails offset` models the abandon
paths of one batch fetch: the inner `try`'s exception, GraphQL errors, or
a response with no asset, each of which `break`s out of the loop.  A
successful batch at `offset` returns `batch_at items offset L`
(abstracting over whether it came from the batch cache or the network).
Returns the accumulated items and the list of offsets fetched. -/
def nested_loop (fails : Nat → Bool) (items : List α) (L : Nat) :
    Nat → Nat → List α × List Nat
  | 0, _ => ([], [])
  | fuel + 1, offset =>
    if fails offset then ([], [offset])
    else if (batch_at items offset L).length < L then (batch_at items offset L, [offset])
    else
      (batch_at items offset L ++ (nested_loop fails items L fuel (offset + L)).1,
       offset :: (nested_loop fails items L fuel (offset + L)).2)

/-- `fetch_nested_data` (fetcher.py lines 125-264), cache-miss path (a
hit on the whole-result cache, lines 143-149, would short-circuit before
any network call).  The initial fetch asks for `L` items at offset 0; if
it fails, `None` is returned (lines 262-264 and the error paths of lines
170-176).  If it returns exactly `L` items the pagination loop fetches
batches of size `L` at offsets `L, 2L, ...` until a batch is short or a
batch fetch fails; otherwise the initial result is returned as is.
Returns the resulting field value and the offsets fetched. -/
def fetch_nested_data (init : NestedInit) (fails : Nat → Bool)
    (items : List α) (L : Nat) : Option (List α) × List Nat :=
  match init with
  | .netError => (none, [0])
  | .gqlErrors => (none, [0])
  | .noAssets => (none, [0])
  | .ok =>
    if (batch_at items 0 L).length = L then
      (some (batch_at items 0 L ++ (nested_loop fails items L (items.length + 1) L).1),
       0 :: (nested_loop fails items L (items.length + 1) L).2)
    else (some (batch_at items 0 L), [0])

/-- One asset of a GraphQL page, as consumed by `process_data`
(processor.py): its `id` and its nested fields (association of field
name to the inline initial items). -/
structure Asset (α : Type) where
  id : String
  nested : List (String × List α)
deriving DecidableEq, Repr

/-- The nested field names `process_data` completes (processor.py
lines 79-88). -/
def nested_fields : List String :=
  ["stringAttributes", "multiValueAttributes", "numericAttributes",
   "dateAttributes", "booleanAttributes", "outgoingRelations",
   "incomingRelations", "responsibilities"]

/-- Per-field completion of `process_data` (processor.py lines 101-115):
when the inline data hit the initial nested limit the complete fetch
result replaces it, except that a falsy result (`None` or an empty list,
line 108 `if complete_data:`) falls back to the initial inline data. -/
def resolve_nested_field (initial : List α) (complete : Option (List α)) :
    List α :=
  match complete with
  | none => initial
  | some l => if l.isEmpty then initial else l

/-- Per-asset processing of `process_data` (processor.py lines 71-119):
each nested field of the fixed list whose inline data has exactly
`initial_nested_limit` items is re-fetched completely
(`oracle asset_id field` gives the result of `fetch_nested_data`, `none`
modelling its `None`); every other field keeps its inline data. -/
def process_asset (nL : Nat) (oracle : String → String → Option (List α))
    (a : Asset α) : Asset α :=
  { a with nested := a.nested.map (fun p =>
      if p.1 ∈ nested_fields then
        if p.2.length = nL then (p.1, resolve_nested_field p.2 (oracle a.id p.1))
        else p
      else p) }

/-- Outcome of one `fetch_data` call as tested by `process_data`
(processor.py line 58): a page of assets, or anything falsy / missing the
`data.assets` path, which ends the pagination. -/
inductive FetchResult (α : Type) where
  | ok (assets : List (Asset α))
  | failed
deriving DecidableEq, Repr

/-- Paging loop of `process_data` (processor.py lines 42-131).  The
successive fetch responses are given as a list, consumed one per
iteration (an exhausted list behaves like a failed fetch).  A failed
response or an empty page ends the loop (lines 58-65); a full page (at
least `limit` assets, line 124) advances the cursor to the last asset's
id (line 128) and continues; a short page ends the loop after being
processed.  Returns all processed assets and the list of cursors used,
one per fetch issued. -/
def process_data (L nL : Nat) (oracle : String → String → Option (List α))
    (paginate : Option String) :
    List (FetchResult α) → List (Asset α) × List (Option String)
  | [] => ([], [paginate])
  | .failed :: _ => ([], [paginate])
  | .ok [] :: _ => ([], [paginate])
  | .ok (a :: as) :: rest =>
    let current := a :: as
    let processed := current.map (process_asset nL oracle)
    if current.length < L then (processed, [paginate])
    else
      let next := process_data L nL oracle
        (some (current.getLast (List.cons_ne_nil a as)).id) rest
      (processed ++ next.1, paginate :: next.2)

/-- Retry configuration extracted from `urllib3`'s `Retry` as built by
`AdaptiveRetryStrategy.get_retry_config`: the `total` attempts and the
`backoff_factor` (the status forcelist and allowed methods are fixed). -/
structure RetryConfig where
  total : Nat
  backoff_factor : ℚ
deriving DecidableEq, Repr

/-- Python `l[-n:]`: the last `n` elements of a list. -/
def lastN (n : Nat) (l : List α) : List α := l.drop (l.length - n)

/-- Count of server-error statuses (`e >= 500`) in a status list. -/
def server_error_count (l : List Nat) : Nat :=
  (l.filter (fun e => 500 ≤ e)).length

/-- `AdaptiveRetryStrategy.get_retry_config` (http_optimizer.py lines
87-117).  `url_errors` is `self.error_patterns.get(url, [])`, the
recorded statuses for the origin; `error_history` is the caller-supplied
argument.  Defaults are `total = 3`, `backoff_factor = 1.0`.  Only when
strictly more than 5 statuses were recorded (line 100 `> 5`) is the rate
of `>= 500` codes among the last 5 computed; a rate strictly above 0.6
gives `total 5, backoff 2.0`, a rate strictly below 0.2 gives `total 2,
backoff 0.5`.  Afterwards, if `error_history` is nonempty and its last 3
entries contain at least two `>= 500` codes, the backoff factor is
multiplied by 1.5.  (The float arithmetic on rates `k/5` with
`k = 0..5` and the literals 0.6 and 0.2 is exact, so `ℚ` is faithful.) -/
def get_retry_config (url_errors error_history : List Nat) : RetryConfig :=
  let base : RetryConfig := ⟨3, 1⟩
  let branched :=
    if 5 < url_errors.length then
      let recent_errors := lastN 5 url_errors
      let error_rate : ℚ :=
        (server_error_count recent_errors : ℚ) / (recent_errors.length : ℚ)
      if (3 : ℚ) / 5 < error_rate then (⟨5, 2⟩ : RetryConfig)
      else if error_rate < (1 : ℚ) / 5 then ⟨2, 1 / 2⟩
      else base
    else base
  if error_history ≠ [] ∧ 2 ≤ server_error_count (lastN 3 error_history) then
    ⟨branched.total, branched.backoff_factor * (3 / 2)⟩
  else branched

/-- The token payload cached by `OAuthTokenManager` (oauth_auth.py lines
78-81): the access token and its absolute expiration time. -/
structure TokenData where
  token : String
  expiration_time : ℚ
deriving DecidableEq, Repr

/-- In-memory state of `OAuthTokenManager` (oauth_auth.py lines 17-21):
`self._token` and `self._expiration_time` (the refresh buffer is the
constant 30). -/
structure OAuthState where
  token : Option String
  expiration_time : ℚ
deriving DecidableEq, Repr

/-- `OAuthTokenManager.get_valid_token` together with
`_fetch_new_token` (oauth_auth.py lines 23-91).  The token endpoint is
modelled by `net`, mapping the call time to the `access_token` and
`expires_in` of the response (the failure path of `_fetch_new_token`
re-raises and is outside the claims).  Steps, as in the source: read
`"oauth_token"` from the auth cache region (mutating it); if a cached
token exists whose `expiration_time` exceeds `now + 30`, adopt and
return it with no network call.  Otherwise, if the in-memory token is
missing or `now >= expiration_time - 30`, call the endpoint, set the
in-memory state to the new token expiring at `now + expires_in`, and put
it into the cache region with TTL `expires_in - 30 - 10`; finally return
the in-memory token.  The last component counts the network calls made
(0 or 1). -/
def get_valid_token (sz : TokenData → Nat) (net : ℚ → String × ℚ) (now : ℚ)
    (ms : OAuthState) (auth_cache : LRUCache TokenData) :
    Option String × OAuthState × LRUCache TokenData × Nat :=
  let res := auth_cache.get now "oauth_token"
  let fresh_hit : Option TokenData :=
    match res.1 with
    | some td => if now + 30 < td.expiration_time then some td else none
    | none => none
  match fresh_hit with
  | some td => (some td.token, ⟨some td.token, td.expiration_time⟩, res.2, 0)
  | none =>
    if ms.token = none ∨ ms.expiration_time - 30 ≤ now then
      let r := net now
      let exp := now + r.2
      let td : TokenData := ⟨r.1, exp⟩
      let cache_ttl := r.2 - 30 - 10
      let ac2 := (res.2.put sz now "oauth_token" td (some cache_ttl)).2
      (some r.1, ⟨some r.1, exp⟩, ac2, 1)
    else (ms.token, ms, res.2, 0)

/-- The three-call scenario of the token-caching claim: starting from a
fresh manager (`_token = None`) and a fresh auth cache region, call
`get_valid_token` at times `t0`, then `t1` (threading the states), then
`t2`; returns the three results (token, manager state, cache state,
network-call count of that call). -/
def token_calls (sz : TokenData → Nat) (net : ℚ → String × ℚ) (ms0 : Nat)
    (dttl : Option ℚ) (mb : Nat) (t0 t1 t2 : ℚ) :
    (Option String × OAuthState × LRUCache TokenData × Nat) ×
    (Option String × OAuthState × LRUCache TokenData × Nat) ×
    (Option String × OAuthState × LRUCache TokenData × Nat) :=
  let r1 := get_valid_token sz net t0 ⟨none, 0⟩ ⟨ms0, dttl, [], 0, mb⟩
  let r2 := get_valid_token sz net t1 r1.2.1 r1.2.2.1
  let r3 := get_valid_token sz net t2 r2.2.1 r2.2.2.1
  (r1, r2, r3)

/-- `BatchRequest` of http_optimizer.py (lines 66-77), reduced to the
fields the batch bookkeeping uses (url and the caller-supplied unique
`request_id`; payload and callback are folded into the runner oracle). -/
structure BatchRequest where
  url : String
  request_id : String
deriving DecidableEq, Repr

/-- The inner `execute_request` of `HTTPOptimizer.batch_requests`
(http_optimizer.py lines 340-361): run one request (the oracle `runner`
models `make_optimized_request` plus the callback), returning
`(request_id, response, None)` on success and `(request_id, None, e)` on
any exception, which is caught and never propagated. -/
def execute_request (runner : BatchRequest → Except ε ρ) (r : BatchRequest) :
    String × Option ρ × Option ε :=
  match runner r with
  | .ok resp => (r.request_id, some resp, none)
  | .error e => (r.request_id, none, some e)

/-- `HTTPOptimizer.batch_requests` (http_optimizer.py lines 329-379):
every submitted request is executed and its single outcome collected via
`as_completed`, i.e. in some completion order.  `completed` is the
submitted request list in that (arbitrary) completion order; theorems
quantify over every permutation of the submitted list. -/
def batch_requests (runner : BatchRequest → Except ε ρ)
    (completed : List BatchRequest) : List (String × Option ρ × Option ε) :=
  completed.map (execute_request runner)

theorem take_add_split (l : List α) (m n : Nat) :
    l.take (m + n) = l.take m ++ (l.drop m).take n := by
  induction m generalizing l with
  | zero => simp
  | succ m ih =>
    cases l with
    | nil => simp
    | cons a t => simp [Nat.succ_add, ih]

theorem batch_at_length (items : List α) (offset L : Nat) :
    (batch_at items offset L).length = min L (items.length - offset) := by
  simp [batch_at]

theorem range_map_offset_mul (base L m : Nat) :
    (List.range (m + 1)).map (fun j => base + j * L) =
      base :: (List.range m).map (fun j => (base + L) + j * L) := by
  rw [List.range_succ_eq_map, List.map_cons, List.map_map]
  congr 1
  · omega
  · refine List.map_congr_left ?_
    intro j _
    simp only [Function.comp_apply, Nat.succ_eq_add_one]
    ring

theorem range_map_mul_zero (L m : Nat) :
    (List.range (m + 1)).map (fun j => j * L) =
      0 :: (List.range m).map (fun j => L + j * L) := by
  rw [List.range_succ_eq_map, List.map_cons, List.map_map]
  congr 1
  · omega
  · refine List.map_congr_left ?_
    intro j _
    simp only [Function.comp_apply, Nat.succ_eq_add_one]
    ring

theorem nested_loop_no_fail (items : List α) (L : Nat) (hL : 0 < L) :
    ∀ fuel offset, items.length - offset < fuel →
      nested_loop (fun _ => false) items L fuel offset =
        (items.drop offset,
         (List.range ((items.length - offset) / L + 1)).map
           (fun k => offset + k * L)) := by
  intro fuel
  induction fuel with
  | zero => intro offset h; omega
  | succ fuel ih =>
    intro offset h
    rw [nested_loop, if_neg (by simp)]
    by_cases hshort : (batch_at items offset L).length < L
    · rw [if_pos hshort]
      have hlen := batch_at_length items offset L
      have hlt : items.length - offset < L := by omega
      have hdiv : (items.length - offset) / L = 0 := Nat.div_eq_of_lt hlt
      have htake : batch_at items offset L = items.drop offset := by
        rw [batch_at]
        exact List.take_of_length_le (by simp; omega)
      rw [htake, hdiv]
      simp [List.range_succ]
    · rw [if_neg hshort]
      have hlen := batch_at_length items offset L
      have hLle : L ≤ items.length - offset := by omega
      rw [ih (offset + L) (by omega)]
      have hdiv : (items.length - offset) / L =
          ((items.length - (offset + L)) / L + 1) := by
        have h2 := Nat.div_eq_sub_div hL hLle
        rw [Nat.sub_sub] at h2
        exact h2
      have hcat : batch_at items offset L ++ items.drop (offset + L) =
          items.drop offset := by
        have hdd : items.drop (offset + L) = (items.drop offset).drop L := by simp
        rw [hdd, batch_at, List.take_append_drop]
      refine Prod.ext ?_ ?_
      · simpa using hcat
      · show offset :: (List.range ((items.length - (offset + L)) / L + 1)).map
            (fun k => offset + L + k * L) =
          (List.range ((items.length - offset) / L + 1)).map
            (fun k => offset + k * L)
        rw [hdiv,
          range_map_offset_mul offset L ((items.length - (offset + L)) / L + 1)]

theorem nested_loop_first_fail (items : List α) (L : Nat) (hL : 0 < L)
    (fails : Nat → Bool) :
    ∀ k fuel offset, items.length - offset < fuel →
      (∀ j, j < k → fails (offset + j * L) = false) →
      fails (offset + k * L) = true →
      offset + k * L ≤ items.length →
      nested_loop fails items L fuel offset =
        ((items.drop offset).take (k * L),
         (List.range (k + 1)).map (fun j => offset + j * L)) := by
  intro k
  induction k with
  | zero =>
    intro fuel offset hfuel _ hfail _
    cases fuel with
    | zero => omega
    | succ fuel =>
      have h0 : fails offset = true := by simpa using hfail
      rw [nested_loop, if_pos h0]
      simp [List.range_succ_eq_map]
  | succ k ih =>
    intro fuel offset hfuel hok hfail hle
    cases fuel with
    | zero => omega
    | succ fuel =>
      have h0 : fails offset = false := by simpa using hok 0 (by omega)
      have hLle : L ≤ items.length - offset := by
        have hmul : L ≤ (k + 1) * L := Nat.le_mul_of_pos_left L (by omega)
        omega
      have hfull : ¬ (batch_at items offset L).length < L := by
        have := batch_at_length items offset L
        omega
      have hshift : offset + L + k * L = offset + (k + 1) * L := by ring
      have hrec := ih fuel (offset + L) (by omega)
        (fun j hj => by
          have hj2 := hok (j + 1) (by omega)
          have harith : offset + L + j * L = offset + (j + 1) * L := by ring
          rw [harith]
          exact hj2)
        (by rw [hshift]; exact hfail)
        (by omega)
      rw [nested_loop, if_neg (by simp [h0]), if_neg hfull, hrec]
      refine Prod.ext ?_ ?_
      · show batch_at items offset L ++ (items.drop (offset + L)).take (k * L) =
          (items.drop offset).take ((k + 1) * L)
        have hdd : items.drop (offset + L) = (items.drop offset).drop L := by simp
        have hsplit : (items.drop offset).take (L + k * L) =
            (items.drop offset).take L ++ ((items.drop offset).drop L).take (k * L) :=
          take_add_split _ L (k * L)
        have hmul2 : (k + 1) * L = L + k * L := by ring
        rw [hmul2, hsplit, hdd, batch_at]
      · show offset :: (List.range (k + 1)).map (fun j => offset + L + j * L) =
          (List.range (k + 1 + 1)).map (fun j => offset + j * L)
        rw [range_map_offset_mul offset L (k + 1)]

/-- C1: nested-field overflow pagination is complete and terminating.
With a working batch source (no failures), for any field contents and any
positive overflow limit `L`, `fetch_nested_data` issues requests at
offsets `0, L, 2L, ...` — exactly `length / L + 1` of them — stops at the
first batch shorter than `L` (including when the initial fetch is already
short), and returns the concatenation of all batches, which is the
complete field value; each request at offset `o` returns
`min L (length - o)` items.  The 125-item / limit-50 instance of the
claim (3 calls at offsets 0, 50, 100 returning 50, 50, 25 items,
concatenated length 125) is the witness theorem. -/
theorem c1_nested_pagination (items : List α) (L : Nat) (hL : 0 < L) :
    fetch_nested_data .ok (fun _ => false) items L =
      (some items,
       (List.range (items.length / L + 1)).map (fun k => k * L)) ∧
    ∀ offset, (batch_at items offset L).length = min L (items.length - offset) := by
  refine ⟨?_, fun offset => batch_at_length items offset L⟩
  by_cases hcase : L ≤ items.length
  · have hinit : (batch_at items 0 L).length = L := by
      have := batch_at_length items 0 L
      omega
    have hrec := nested_loop_no_fail items L hL (items.length + 1) L (by omega)
    rw [fetch_nested_data, if_pos hinit, hrec]
    have hdiv : items.length / L = (items.length - L) / L + 1 :=
      Nat.div_eq_sub_div hL hcase
    refine Prod.ext ?_ ?_
    · show some (batch_at items 0 L ++ items.drop L) = some items
      rw [batch_at, List.drop_zero, List.take_append_drop]
    · show 0 :: (List.range ((items.length - L) / L + 1)).map
          (fun k => L + k * L) =
        (List.range (items.length / L + 1)).map (fun k => k * L)
      rw [hdiv, range_map_mul_zero L ((items.length - L) / L + 1)]
  · have hlen : (batch_at items 0 L).length = items.length := by
      have := batch_at_length items 0 L
      omega
    have hne : ¬ (batch_at items 0 L).length = L := by omega
    have htake : batch_at items 0 L = items := by
      rw [batch_at, List.drop_zero]
      exact List.take_of_length_le (by omega)
    have hdiv : items.length / L = 0 := Nat.div_eq_of_lt (by omega)
    rw [fetch_nested_data, if_neg hne, htake, hdiv]
    simp [List.range_succ_eq_map]

set_option maxRecDepth 10000 in
/-- Witness for C1: the claim's concrete instance, a field of 125 items
with overflow limit 50: three calls, at offsets 0, 50 and 100, batch
sizes 50, 50 and 25, and the returned list is the complete 125-item
field. -/
theorem c1_nested_pagination_witness :
    fetch_nested_data .ok (fun _ => false) (List.range 125) 50 =
      (some (List.range 125), [0, 50, 100]) ∧
    (batch_at (List.range 125) 0 50).length = 50 ∧
    (batch_at (List.range 125) 50 50).length = 50 ∧
    (batch_at (List.range 125) 100 50).length = 25 := by
  have h := c1_nested_pagination (List.range 125) 50 (by decide)
  refine ⟨?_, ?_, ?_, ?_⟩
  · rw [h.1]; decide
  · rw [h.2 0]; decide
  · rw [h.2 50]; decide
  · rw [h.2 100]; decide

theorem process_data_trace_ne_nil (L nL : Nat)
    (oracle : String → String → Option (List α)) (pag : Option String) :
    ∀ rs : List (FetchResult α), (process_data L nL oracle pag rs).2 ≠ [] := by
  intro rs
  cases rs with
  | nil => simp [process_data]
  | cons r rest =>
    cases r with
    | failed => simp [process_data]
    | ok assets =>
      cases assets with
      | nil => simp [process_data]
      | cons a as =>
        rw [process_data]
        split
        · simp
        · simp

/-- C2: top-level pagination terminates exactly when a page is short.
For any page limit `L` and any sequence of fetch responses, the loop of
`process_data` issues exactly one fetch (no further cursor advance) iff
the first page is empty or shorter than `L`; otherwise it advances the
cursor to the last returned asset's id and fetches again.  For three
successive pages of sizes 94, 94 and 40 under page limit 94, exactly 3
fetches are issued — with cursors none, last id of page 1, last id of
page 2 — and pagination stops after the 40-item page regardless of any
further available responses. -/
theorem c2_top_pagination (L nL : Nat)
    (oracle : String → String → Option (List α)) :
    (∀ (pag : Option String) (p : List (Asset α)) rest,
        (process_data L nL oracle pag (.ok p :: rest)).2 = [pag] ↔
          p = [] ∨ p.length < L) ∧
    (∀ (p1 p2 p3 : List (Asset α)) rest (h1 : p1 ≠ []) (h2 : p2 ≠ []),
        p1.length = 94 → p2.length = 94 → p3.length = 40 →
        (process_data 94 nL oracle none
            (.ok p1 :: .ok p2 :: .ok p3 :: rest)).2 =
          [none, some (p1.getLast h1).id, some (p2.getLast h2).id]) := by
  constructor
  · intro pag p rest
    cases p with
    | nil => simp [process_data]
    | cons a as =>
      simp only [process_data]
      by_cases hlen : (a :: as).length < L
      · rw [if_pos hlen]
        simp at hlen
        simp [hlen]
      · rw [if_neg hlen]
        have hne := process_data_trace_ne_nil L nL oracle
          (some ((a :: as).getLast (List.cons_ne_nil a as)).id) rest
        simp at hlen
        simp [hne]
        omega
  · intro p1 p2 p3 rest h1 h2 hl1 hl2 hl3
    cases p1 with
    | nil => exact absurd rfl h1
    | cons a1 t1 =>
      cases p2 with
      | nil => exact absurd rfl h2
      | cons a2 t2 =>
        cases p3 with
        | nil => simp at hl3
        | cons a3 t3 =>
          have g1 : ¬ (a1 :: t1).length < 94 := by omega
          have g2 : ¬ (a2 :: t2).length < 94 := by omega
          have g3 : (a3 :: t3).length < 94 := by omega
          simp only [process_data]
          rw [if_neg g1, if_neg g2, if_pos g3]

/-- Witness for C2: a source returning pages of sizes 94, 94 and 40 with
page limit 94 triggers exactly 3 fetches, at cursors none, "a" and "b",
and stops after the 40-item page. -/
theorem c2_top_pagination_witness :
    (process_data 94 0 (fun _ _ => none) none
        [FetchResult.ok (List.replicate 94 ⟨"a", []⟩),
         FetchResult.ok (List.replicate 94 ⟨"b", []⟩),
         FetchResult.ok (List.replicate 40 (⟨"c", []⟩ : Asset Nat))]).2 =
      [none, some "a", some "b"] := by
  have h := (c2_top_pagination (α := Nat) 94 0 (fun _ _ => none)).2
      (List.replicate 94 ⟨"a", []⟩) (List.replicate 94 ⟨"b", []⟩)
      (List.replicate 40 ⟨"c", []⟩) []
      (by simp) (by simp) (by simp) (by simp) (by simp)
  rw [h]
  decide

theorem lookup_filter_of_some {l : List (String × β)} {k : String} {e : β}
    {p : String × β → Bool} (h : l.lookup k = some e) (hp : p (k, e) = true) :
    (l.filter p).lookup k = some e := by
  induction l with
  | nil => simp at h
  | cons pr t ih =>
    obtain ⟨a, b⟩ := pr
    by_cases hk : k = a
    · subst hk
      simp only [List.lookup_cons_self] at h
      obtain rfl : b = e := by injection h
      rw [List.filter_cons_of_pos hp]
      simp
    · have hk2 : (k == a) = false := beq_eq_false_iff_ne.mpr hk
      simp only [List.lookup_cons, hk2] at h
      cases hpb : p (a, b) with
      | true =>
        rw [List.filter_cons_of_pos hpb]
        simp only [List.lookup_cons, hk2]
        exact ih h
      | false =>
        rw [List.filter_cons_of_neg (by simp [hpb])]
        exact ih h

theorem lookup_filter_none {l : List (String × β)} {k : String}
    (p : String × β → Bool) (h : l.lookup k = none) :
    (l.filter p).lookup k = none := by
  rw [List.lookup_eq_none_iff] at h ⊢
  intro q hq
  exact h q (List.mem_filter.mp hq).1

theorem key_unique_of_nodup {l : List (String × β)} {k : String} {e : β}
    (hnd : (l.map Prod.fst).Nodup) (h : l.lookup k = some e) :
    ∀ q ∈ l, q.1 = k → q = (k, e) := by
  obtain ⟨l₁, l₂, rfl, hl₁⟩ := List.lookup_eq_some_iff.mp h
  rw [List.map_append, List.map_cons] at hnd
  have hk2 : k ∉ l₂.map Prod.fst :=
    (List.nodup_cons.mp (List.nodup_append.mp hnd).2.1).1
  intro q hq hqk
  rcases List.mem_append.mp hq with h1 | h2
  · have hne := hl₁ q h1
    rw [hqk] at hne
    simp at hne
  · rcases List.mem_cons.mp h2 with rfl | h3
    · rfl
    · exact absurd (List.mem_map.mpr ⟨q, h3, hqk⟩) hk2

theorem evict_expired_lookup_none (s : LRUCache α) (now : ℚ) (key : String)
    (e : CacheEntry α) (hnd : (s.cache.map Prod.fst).Nodup)
    (h : s.cache.lookup key = some e) (hexp : e.is_expired now = true) :
    ((s.evict_expired now).cache).lookup key = none := by
  rw [LRUCache.evict_expired]
  rw [List.lookup_eq_none_iff]
  intro q hq
  have hmem := List.mem_filter.mp hq
  by_cases hk : q.1 = key
  · have heq := key_unique_of_nodup hnd h q hmem.1 hk
    subst heq
    rw [hexp] at hmem
    simp at hmem
  · simp
    exact fun habs => hk habs.symm

theorem evict_lru_list_length (ms : Nat) (hms : 0 < ms) :
    ∀ (l : List (String × CacheEntry α)) (t : Int),
      (evict_lru_list ms l t).1.length < ms := by
  intro l
  induction l with
  | nil => intro t; simpa [evict_lru_list] using hms
  | cons p rest ih =>
    intro t
    rw [evict_lru_list]
    by_cases h : ms ≤ (p :: rest).length
    · rw [if_pos h]; exact ih _
    · rw [if_neg h]
      simp only [List.length_cons] at h ⊢
      omega

theorem evict_memory_list_length_le (mb : Int) :
    ∀ (l : List (String × CacheEntry α)) (t : Int),
      (evict_memory_list mb l t).1.length ≤ l.length := by
  intro l
  induction l with
  | nil => intro t; simp [evict_memory_list]
  | cons p rest ih =>
    intro t
    rw [evict_memory_list]
    by_cases h : mb < t
    · rw [if_pos h]
      calc (evict_memory_list mb rest (t - p.2.size_bytes)).1.length
          ≤ rest.length := ih _
        _ ≤ (p :: rest).length := by simp
    · rw [if_neg h]

@[simp] theorem remove_entry_max_size (s : LRUCache α) (key : String) :
    (s.remove_entry key).max_size = s.max_size := by
  rw [LRUCache.remove_entry]
  split <;> rfl

theorem evict_chain_length_lt (s2 : LRUCache α) (hms : 0 < s2.max_size) :
    (s2.evict_lru.evict_by_memory).cache.length < s2.max_size := by
  have h2 := evict_memory_list_length_le
    ((s2.evict_lru.max_memory_mb : Int) * 1024 * 1024)
    s2.evict_lru.cache s2.evict_lru.total_size
  have h1 := evict_lru_list_length s2.max_size hms s2.cache s2.total_size
  calc (s2.evict_lru.evict_by_memory).cache.length
      ≤ s2.evict_lru.cache.length := h2
    _ = (evict_lru_list s2.max_size s2.cache s2.total_size).1.length := rfl
    _ < s2.max_size := h1

theorem evict_lru_list_drop (ms : Nat) :
    ∀ (l : List (String × CacheEntry α)) (t : Int),
      (evict_lru_list ms l t).1 = l.drop (l.length + 1 - ms) := by
  intro l
  induction l with
  | nil => intro t; simp [evict_lru_list]
  | cons p rest ih =>
    intro t
    rw [evict_lru_list]
    by_cases h : ms ≤ (p :: rest).length
    · rw [if_pos h, ih]
      have harith : (p :: rest).length + 1 - ms = (rest.length + 1 - ms) + 1 := by
        simp only [List.length_cons]
        simp only [List.length_cons] at h
        omega
      rw [harith, List.drop_succ_cons]
    · rw [if_neg h]
      have harith : (p :: rest).length + 1 - ms = 0 := by
        simp only [List.length_cons]
        simp only [List.length_cons] at h
        omega
      rw [harith, List.drop_zero]

/-- C10: a rejected put is atomic.  For every region state, key and value
whose estimated size strictly exceeds `max_memory_mb * 1024 * 1024`
bytes, `put` returns `false` and the entire region state — key set,
entries, recency order and tracked byte total — is exactly the input
state, and no eviction runs. -/
theorem c10_put_reject_atomic (sz : α → Nat) (s : LRUCache α) (now : ℚ)
    (key : String) (value : α) (ttl : Option ℚ)
    (h : s.max_memory_mb * 1024 * 1024 < sz value) :
    LRUCache.put sz s now key value ttl = (false, s) := by
  simp only [LRUCache.put]
  rw [if_pos h]

/-- Witness for C10: with the default 100 MB cap, a 104857601-byte value
is rejected and the (empty) region is returned untouched. -/
theorem c10_put_reject_atomic_witness :
    100 * 1024 * 1024 < 104857601 ∧
    LRUCache.put (fun n => n) ⟨10, none, [], 0, 100⟩ 0 "k" 104857601 none =
      (false, ⟨10, none, [], 0, 100⟩) :=
  ⟨by norm_num,
   c10_put_reject_atomic (fun n => n) ⟨10, none, [], 0, 100⟩ 0 "k" 104857601
     none (by norm_num)⟩

/-- Counterexample to C5 as stated: inserting `max_count + 1 = 3`
distinct keys into an empty region with `max_size = 2` does not leave the
other 2 keys retrievable.  Because `_evict_lru` evicts while
`len(cache) >= max_size`, the second key is evicted as well: after the
three puts only "k3" remains, and `get "k2"` misses. -/
theorem c5_cex :
    (LRUCache.put (fun _ => 1)
        (LRUCache.put (fun _ => 1)
          (LRUCache.put (fun _ => 1)
            (⟨2, none, [], 0, 100⟩ : LRUCache Nat) 0 "k1" 10 none).2
          1 "k2" 20 none).2
        2 "k3" 30 none).2.cache.map Prod.fst = ["k3"] ∧
    ((LRUCache.put (fun _ => 1)
        (LRUCache.put (fun _ => 1)
          (LRUCache.put (fun _ => 1)
            (⟨2, none, [], 0, 100⟩ : LRUCache Nat) 0 "k1" 10 none).2
          1 "k2" 20 none).2
        2 "k3" 30 none).2.get 3 "k2").1 = none := by
  decide

/-- C5, amended: after any accepted `put`, the region's entry count is
strictly below `max_size` (hence at most `max_size`), because
`_evict_lru` pops the least-recently-used entries while the count is
still at least `max_size`; the popped entries are always the oldest ones
(the eviction loop returns the `max_size - 1` most recent entries).
Consequently inserting `max_count + 1` distinct keys into an empty
region of `max_size = max_count` evicts the two least-recently-used keys
(the first eviction removing exactly the least-recently-used one),
leaving `max_count - 1` keys retrievable — not `max_count` as claimed. -/
theorem c5_amended (sz : α → Nat) :
    (∀ (s : LRUCache α) (now : ℚ) (key : String) (value : α) (ttl : Option ℚ),
        0 < s.max_size → (LRUCache.put sz s now key value ttl).1 = true →
        ((LRUCache.put sz s now key value ttl).2).cache.length < s.max_size) ∧
    (∀ (ms : Nat) (l : List (String × CacheEntry α)) (t : Int),
        (evict_lru_list ms l t).1 = l.drop (l.length + 1 - ms)) := by
  constructor
  · intro s now key value ttl hms hacc
    simp only [LRUCache.put] at hacc ⊢
    by_cases hrej : s.max_memory_mb * 1024 * 1024 < sz value
    · rw [if_pos hrej] at hacc
      simp at hacc
    · rw [if_neg hrej]
      refine lt_of_lt_of_le (evict_chain_length_lt _ ?_) ?_
      · simpa using hms
      · simp
  · exact fun ms l t => evict_lru_list_drop ms l t

/-- Witness for C5 amended: a concrete accepted put into a region at
capacity (`max_size = 2`) leaves 1 entry, strictly below `max_size`. -/
theorem c5_amended_witness :
    (0 : Nat) < 2 ∧
    (LRUCache.put (fun _ => 1)
      (⟨2, none, [("a", ⟨5, 0, 0, 0, none, 1⟩), ("b", ⟨6, 0, 0, 0, none, 1⟩)],
        2, 100⟩ : LRUCache Nat) 1 "c" 7 none).1 = true ∧
    ((LRUCache.put (fun _ => 1)
      (⟨2, none, [("a", ⟨5, 0, 0, 0, none, 1⟩), ("b", ⟨6, 0, 0, 0, none, 1⟩)],
        2, 100⟩ : LRUCache Nat) 1 "c" 7 none).2).cache.length < 2 :=
  ⟨by decide, by decide,
   (c5_amended (fun _ => 1)).1
     ⟨2, none, [("a", ⟨5, 0, 0, 0, none, 1⟩), ("b", ⟨6, 0, 0, 0, none, 1⟩)],
       2, 100⟩ 1 "c" 7 none (by decide) (by decide)⟩

/-- Counterexample to C6 as stated: `get(k)` does not sweep only the
accessed key.  In a region holding a never-expiring entry under "a" and
an entry under "b" whose TTL of 1 has lapsed by time 5, `get("a")`
removes the entry stored under "b" (the sweep `_evict_expired` run by
`get` scans every key), even though the accessed key is "a". -/
theorem c6_cex :
    List.lookup "b"
      (⟨10, none, [("a", ⟨1, 0, 0, 0, none, 1⟩), ("b", ⟨2, 0, 0, 0, some 1, 1⟩)],
        2, 100⟩ : LRUCache Nat).cache = some ⟨2, 0, 0, 0, some 1, 1⟩ ∧
    CacheEntry.is_expired (⟨2, 0, 0, 0, some 1, 1⟩ : CacheEntry Nat) 5 = true ∧
    ((((⟨10, none,
        [("a", ⟨1, 0, 0, 0, none, 1⟩), ("b", ⟨2, 0, 0, 0, some 1, 1⟩)],
        2, 100⟩ : LRUCache Nat)).get 5 "a").2).cache.lookup "b" = none := by
  refine ⟨?_, ?_, ?_⟩
  · norm_num [List.lookup, (by decide : (("b" : String) == "a") = false)]
  · norm_num [CacheEntry.is_expired]
  · norm_num [LRUCache.get, LRUCache.evict_expired, LRUCache.remove_entry,
      CacheEntry.is_expired, List.filter, List.lookup_cons, List.lookup_append,
      (by decide : (("b" : String) == "a") = false),
      (by decide : (("a" : String) == "a") = true)]

/-- C6, amended: `get(k)` performs a global expiry sweep — it removes the
expired entries of every key, not only the accessed one — and leaves
every non-expired entry under any other key unchanged (same entry value,
metadata and presence).  Formally: a non-expired entry under `k' ≠ k`
is still found unchanged after `get(k)`, and (for a region with distinct
keys) an expired entry under `k' ≠ k` is gone after `get(k)`. -/
theorem c6_get_sweep (α : Type) :
    (∀ (s : LRUCache α) (now : ℚ) (k k' : String) (e' : CacheEntry α),
        k' ≠ k → s.cache.lookup k' = some e' → e'.is_expired now = false →
        (((s.get now k).2).cache).lookup k' = some e') ∧
    (∀ (s : LRUCache α) (now : ℚ) (k k' : String) (e' : CacheEntry α),
        k' ≠ k → (s.cache.map Prod.fst).Nodup →
        s.cache.lookup k' = some e' → e'.is_expired now = true →
        (((s.get now k).2).cache).lookup k' = none) := by
  constructor
  · intro s now k k' e' hne h hexp
    have h1 : ((s.evict_expired now).cache).lookup k' = some e' := by
      rw [LRUCache.evict_expired]
      exact lookup_filter_of_some h (by simp [hexp])
    have h2 := lookup_filter_of_some (p := fun p => !(p.1 == k)) h1
      (by simp [hne])
    simp only [LRUCache.get]
    split
    · exact h1
    · split
      · rename_i e heq hexpired
        simp only [LRUCache.remove_entry, heq]
        exact h2
      · simp [List.lookup_append, h2]
  · intro s now k k' e' hne hnd h hexp
    have h1 : ((s.evict_expired now).cache).lookup k' = none :=
      evict_expired_lookup_none s now k' e' hnd h hexp
    have h2 := lookup_filter_none (fun p => !(p.1 == k)) h1
    simp only [LRUCache.get]
    split
    · exact h1
    · split
      · rename_i e heq hexpired
        simp only [LRUCache.remove_entry, heq]
        exact h2
      · have hk : (k' == k) = false := beq_eq_false_iff_ne.mpr hne
        simp [List.lookup_append, h2, List.lookup_cons, hk]

/-- Witness for C6 amended: with "b" holding a non-expired entry,
`get("a")` leaves the entry under "b" untouched. -/
theorem c6_get_sweep_witness :
    ("b" : String) ≠ "a" ∧
    List.lookup "b"
      (⟨10, none, [("a", ⟨1, 0, 0, 0, none, 1⟩), ("b", ⟨2, 3, 0, 3, none, 1⟩)],
        2, 100⟩ : LRUCache Nat).cache = some ⟨2, 3, 0, 3, none, 1⟩ ∧
    ((((⟨10, none,
        [("a", ⟨1, 0, 0, 0, none, 1⟩), ("b", ⟨2, 3, 0, 3, none, 1⟩)],
        2, 100⟩ : LRUCache Nat)).get 5 "a").2).cache.lookup "b" =
      some ⟨2, 3, 0, 3, none, 1⟩ :=
  ⟨by decide,
   by norm_num [List.lookup, (by decide : (("b" : String) == "a") = false)],
   (c6_get_sweep Nat).1
     ⟨10, none, [("a", ⟨1, 0, 0, 0, none, 1⟩), ("b", ⟨2, 3, 0, 3, none, 1⟩)],
       2, 100⟩ 5 "a" "b" ⟨2, 3, 0, 3, none, 1⟩
     (by decide)
     (by norm_num [List.lookup, (by decide : (("b" : String) == "a") = false)])
     (by decide)⟩

/-- C3: cache TTL correctness.  (i) An entry is expired at time `now`
iff its ttl is set and `now` minus its creation timestamp strictly
exceeds the ttl.  (ii) An expired entry is never returned by `get` (for
a region with distinct keys, as the ordered dict guarantees).  (iii) For
every key, value and `ttl > 0`: putting into a fresh region (enough
capacity: `max_size > 1` because eviction triggers at `max_size`, and
value within the single-entry byte cap) and getting at any later time
returns the stored value while the elapsed time is at most `ttl`, and
returns `none` once the elapsed time exceeds `ttl`. -/
theorem c3_cache_ttl (sz : α → Nat) :
    (∀ (e : CacheEntry α) (now : ℚ),
        e.is_expired now = true ↔ ∃ t, e.ttl = some t ∧ t < now - e.timestamp) ∧
    (∀ (s : LRUCache α) (now : ℚ) (key : String) (e : CacheEntry α),
        (s.cache.map Prod.fst).Nodup → s.cache.lookup key = some e →
        e.is_expired now = true → (s.get now key).1 = none) ∧
    (∀ (ms : Nat) (dttl : Option ℚ) (mb : Nat) (key : String) (value : α)
        (ttl now later : ℚ), 0 < ttl → 1 < ms → sz value ≤ mb * 1024 * 1024 →
        (later - now ≤ ttl →
          (((LRUCache.put sz ⟨ms, dttl, [], 0, mb⟩ now key value
              (some ttl)).2).get later key).1 = some value) ∧
        (ttl < later - now →
          (((LRUCache.put sz ⟨ms, dttl, [], 0, mb⟩ now key value
              (some ttl)).2).get later key).1 = none)) := by
  refine ⟨?_, ?_, ?_⟩
  · intro e now
    cases h : e.ttl <;> simp [CacheEntry.is_expired, h]
  · intro s now key e hnd h hexp
    have h1 : ((s.evict_expired now).cache).lookup key = none :=
      evict_expired_lookup_none s now key e hnd h hexp
    simp only [LRUCache.get]
    split
    · rfl
    · rename_i e2 heq
      rw [h1] at heq
      cases heq
  · intro ms dttl mb key value ttl now later ht hms hsz
    have hput : LRUCache.put sz ⟨ms, dttl, [], 0, mb⟩ now key value (some ttl) =
        (true, ⟨ms, dttl, [(key, ⟨value, now, 0, now, some ttl, sz value⟩)],
          (sz value : Int), mb⟩) := by
      simp only [LRUCache.put, LRUCache.remove_entry, List.lookup_nil]
      rw [if_neg (by omega)]
      simp only [List.nil_append, LRUCache.evict_lru]
      rw [evict_lru_list, if_neg (by simp; omega)]
      simp only [LRUCache.evict_by_memory]
      rw [evict_memory_list, if_neg (by omega)]
      norm_num
    rw [hput]
    constructor
    · intro hle
      have hexp : CacheEntry.is_expired
          (⟨value, now, 0, now, some ttl, sz value⟩ : CacheEntry α) later = false := by
        simp only [CacheEntry.is_expired, decide_eq_false_iff_not]
        exact not_lt.mpr hle
      simp [LRUCache.get, LRUCache.evict_expired, hexp, List.filter]
    · intro hgt
      have hexp : CacheEntry.is_expired
          (⟨value, now, 0, now, some ttl, sz value⟩ : CacheEntry α) later = true := by
        simp only [CacheEntry.is_expired, decide_eq_true_eq]
        exact hgt
      simp [LRUCache.get, LRUCache.evict_expired, hexp, List.filter]

/-- Witness for C3: storing the string "v" under "k" at time 0 with
ttl 5 into a fresh region: `get` at time 3 (elapsed 3 ≤ 5) returns "v",
and `get` at time 6 (elapsed 6 > 5) returns `none`. -/
theorem c3_cache_ttl_witness :
    (0 : ℚ) < 5 ∧ (1 : Nat) < 10 ∧
    (((LRUCache.put String.length ⟨10, none, [], 0, 100⟩ 0 "k" "v"
        (some 5)).2).get 3 "k").1 = some "v" ∧
    (((LRUCache.put String.length ⟨10, none, [], 0, 100⟩ 0 "k" "v"
        (some 5)).2).get 6 "k").1 = none := by
  have h := (c3_cache_ttl String.length).2.2 10 none 100 "k" "v" 5 0 3
    (by norm_num) (by norm_num) (by decide)
  have h2 := (c3_cache_ttl String.length).2.2 10 none 100 "k" "v" 5 0 6
    (by norm_num) (by norm_num) (by decide)
  exact ⟨by norm_num, by norm_num, h.1 (by norm_num), h2.2 (by norm_num)⟩

theorem lastN_length_of_le {l : List α} {n : Nat} (h : n ≤ l.length) :
    (lastN n l).length = n := by
  simp only [lastN, List.length_drop]
  omega

/-- Counterexample to C4 as stated: with recorded statuses
`[200, 500, 500, 500, 200, 200]` for the origin and empty error history,
the most recent 5 statuses are `[500, 500, 500, 200, 200]` — exactly
60% (3 of 5) codes ≥ 500, so "at least 60%" holds — yet the computed
configuration is the default `total 3, backoff 1.0`, not
`total 5, backoff 2.0`: the code requires the rate to be strictly above
0.6 (and, separately, strictly more than 5 recorded statuses). -/
theorem c4_cex :
    server_error_count (lastN 5 [200, 500, 500, 500, 200, 200]) = 3 ∧
    get_retry_config [200, 500, 500, 500, 200, 200] [] = ⟨3, 1⟩ ∧
    get_retry_config [200, 500, 500, 500, 200, 200] [] ≠ ⟨5, 2⟩ := by
  refine ⟨by decide, ?_, ?_⟩
  · norm_num [get_retry_config, lastN, server_error_count, List.filter]
  · norm_num [get_retry_config, lastN, server_error_count, List.filter]

/-- C4, amended: the retry configuration defaults to `total 3, backoff
1.0`; the rate-based adjustment only applies when strictly more than 5
statuses have been recorded for the origin, and then: strictly more than
60% codes ≥ 500 among the most recent 5 (i.e. at least 4 of 5) gives
`total 5, backoff 2.0`; strictly under 20% (i.e. 0 of 5) gives
`total 2, backoff 0.5`; anything between (1 to 3 of 5) keeps the
default.  Independently, if the caller-supplied error history is
nonempty and its last 3 entries contain at least 2 codes ≥ 500, the
backoff factor of the branch result is multiplied by 1.5. -/
theorem c4_retry_config :
    (∀ ue eh : List Nat,
        (eh = [] ∨ server_error_count (lastN 3 eh) < 2) → ue.length ≤ 5 →
        get_retry_config ue eh = ⟨3, 1⟩) ∧
    (∀ ue eh : List Nat,
        (eh = [] ∨ server_error_count (lastN 3 eh) < 2) → 5 < ue.length →
        4 ≤ server_error_count (lastN 5 ue) →
        get_retry_config ue eh = ⟨5, 2⟩) ∧
    (∀ ue eh : List Nat,
        (eh = [] ∨ server_error_count (lastN 3 eh) < 2) → 5 < ue.length →
        server_error_count (lastN 5 ue) = 0 →
        get_retry_config ue eh = ⟨2, 1 / 2⟩) ∧
    (∀ ue eh : List Nat,
        (eh = [] ∨ server_error_count (lastN 3 eh) < 2) → 5 < ue.length →
        1 ≤ server_error_count (lastN 5 ue) →
        server_error_count (lastN 5 ue) ≤ 3 →
        get_retry_config ue eh = ⟨3, 1⟩) ∧
    (∀ ue eh : List Nat,
        eh ≠ [] → 2 ≤ server_error_count (lastN 3 eh) →
        get_retry_config ue eh =
          ⟨(get_retry_config ue []).total,
           (get_retry_config ue []).backoff_factor * (3 / 2)⟩) := by
  have hnomult : ∀ eh : List Nat,
      (eh = [] ∨ server_error_count (lastN 3 eh) < 2) →
      ¬(eh ≠ [] ∧ 2 ≤ server_error_count (lastN 3 eh)) := by
    intro eh h
    rcases h with h | h
    · simp [h]
    · intro hc
      omega
  have hlen5 : ∀ ue : List Nat, 5 < ue.length → ((lastN 5 ue).length : ℚ) = 5 := by
    intro ue h
    rw [lastN_length_of_le (by omega)]
    norm_num
  have hhi : ∀ c : Nat, 4 ≤ c → (3 : ℚ) / 5 < (c : ℚ) / 5 := by
    intro c hc
    rw [div_lt_div_iff₀ (by norm_num) (by norm_num)]
    have h15 : (15 : ℕ) < c * 5 := by omega
    exact_mod_cast h15
  have hnhi : ∀ c : Nat, c ≤ 3 → ¬ ((3 : ℚ) / 5 < (c : ℚ) / 5) := by
    intro c hc habs
    rw [div_lt_div_iff₀ (by norm_num) (by norm_num)] at habs
    have h15 : (15 : ℕ) < c * 5 := by exact_mod_cast habs
    omega
  have hnlo : ∀ c : Nat, 1 ≤ c → ¬ ((c : ℚ) / 5 < 1 / 5) := by
    intro c hc habs
    rw [div_lt_div_iff₀ (by norm_num) (by norm_num)] at habs
    have h5 : c * 5 < (5 : ℕ) := by exact_mod_cast habs
    omega
  refine ⟨?_, ?_, ?_, ?_, ?_⟩
  · intro ue eh hm hlen
    simp only [get_retry_config]
    rw [if_neg (hnomult eh hm), if_neg (by omega)]
  · intro ue eh hm hlen hcnt
    simp only [get_retry_config]
    rw [if_neg (hnomult eh hm), if_pos hlen, hlen5 ue hlen]
    rw [if_pos (hhi _ hcnt)]
  · intro ue eh hm hlen hcnt
    simp only [get_retry_config]
    rw [if_neg (hnomult eh hm), if_pos hlen, hlen5 ue hlen]
    rw [if_neg (hnhi _ (by omega)), hcnt]
    rw [if_pos (by norm_num)]
  · intro ue eh hm hlen hc1 hc3
    simp only [get_retry_config]
    rw [if_neg (hnomult eh hm), if_pos hlen, hlen5 ue hlen]
    rw [if_neg (hnhi _ hc3), if_neg (hnlo _ hc1)]
  · intro ue eh heh hcnt
    simp only [get_retry_config]
    rw [if_pos ⟨heh, hcnt⟩]
    rw [if_neg (show ¬(([] : List Nat) ≠ [] ∧
      2 ≤ server_error_count (lastN 3 ([] : List Nat))) by simp)]

/-- Witness for C4 amended: six recorded statuses whose last-5 window
holds 4 codes ≥ 500 (80% > 60%) and empty history give
`total 5, backoff 2.0`. -/
theorem c4_retry_config_witness :
    get_retry_config [200, 500, 500, 500, 500, 200] [] = ⟨5, 2⟩ :=
  (c4_retry_config).2.1 [200, 500, 500, 500, 500, 200] []
    (Or.inl rfl) (by decide) (by decide)

@[simp] theorem execute_request_fst (runner : BatchRequest → Except ε ρ)
    (q : BatchRequest) : (execute_request runner q).1 = q.request_id := by
  cases h : runner q <;> simp [execute_request, h]

theorem filter_exec_unique (runner : BatchRequest → Except ε ρ)
    (r : BatchRequest) :
    ∀ reqs : List BatchRequest, (reqs.map BatchRequest.request_id).Nodup →
      r ∈ reqs →
      (reqs.map (execute_request runner)).filter
        (fun o => o.1 == r.request_id) = [execute_request runner r] := by
  intro reqs
  induction reqs with
  | nil => simp
  | cons q t ih =>
    intro hnd hmem
    have hnd2 : (∀ x ∈ t, ¬ x.request_id = q.request_id) ∧
        (t.map BatchRequest.request_id).Nodup := by simpa using hnd
    rcases List.mem_cons.mp hmem with rfl | hmem2
    · rw [List.map_cons, List.filter_cons_of_pos (by simp)]
      have hnil : (t.map (execute_request runner)).filter
          (fun o => o.1 == r.request_id) = [] := by
        rw [List.filter_eq_nil_iff]
        intro o ho
        obtain ⟨q2, hq2, rfl⟩ := List.mem_map.mp ho
        have hne := hnd2.1 q2 hq2
        simp [hne]
      rw [hnil]
    · have hqr : q.request_id ≠ r.request_id := by
        intro habs
        exact hnd2.1 r hmem2 habs.symm
      rw [List.map_cons, List.filter_cons_of_neg (by simp [hqr])]
      exact ih hnd2.2 hmem2

theorem filter_ne_exec_comm (runner : BatchRequest → Except ε ρ)
    (rid : String) :
    ∀ l : List BatchRequest,
      (l.map (execute_request runner)).filter (fun o => !(o.1 == rid)) =
        (l.filter (fun q => !(q.request_id == rid))).map
          (execute_request runner) := by
  intro l
  induction l with
  | nil => simp
  | cons q t ih =>
    cases hb : (q.request_id == rid) with
    | true =>
      rw [List.map_cons, List.filter_cons_of_neg (by simp [hb]),
        List.filter_cons_of_neg (by simp [hb]), ih]
    | false =>
      rw [List.map_cons, List.filter_cons_of_pos (by simp [hb]),
        List.filter_cons_of_pos (by simp [hb]), List.map_cons, ih]

/-- C8: batch outcome completeness and failure isolation.  For every
batch of requests with pairwise distinct request identifiers, whatever
order the concurrent executions complete in (any permutation of the
submitted list), the collected results contain exactly one outcome per
submitted request — the success response or the caught error of that
very request — and changing the outcome of one request (e.g. making it
raise) leaves the outcomes recorded for all other identifiers
unchanged. -/
theorem c8_batch_outcomes (ε ρ : Type) (runner : BatchRequest → Except ε ρ)
    (reqs completed : List BatchRequest) (hperm : completed.Perm reqs)
    (huniq : (reqs.map BatchRequest.request_id).Nodup) :
    (∀ r ∈ reqs,
        (batch_requests runner completed).filter
          (fun o => o.1 == r.request_id) = [execute_request runner r]) ∧
    (∀ (runner2 : BatchRequest → Except ε ρ) (r : BatchRequest), r ∈ reqs →
        (∀ q ∈ reqs, q.request_id ≠ r.request_id → runner q = runner2 q) →
        (batch_requests runner completed).filter
            (fun o => !(o.1 == r.request_id)) =
          (batch_requests runner2 completed).filter
            (fun o => !(o.1 == r.request_id))) := by
  constructor
  · intro r hr
    have hpf : ((batch_requests runner completed).filter
        (fun o => o.1 == r.request_id)).Perm
          ((reqs.map (execute_request runner)).filter
            (fun o => o.1 == r.request_id)) :=
      (hperm.map (execute_request runner)).filter _
    rw [filter_exec_unique runner r reqs huniq hr] at hpf
    exact List.perm_singleton.mp hpf
  · intro runner2 r hr hagree
    rw [batch_requests, batch_requests, filter_ne_exec_comm,
      filter_ne_exec_comm]
    refine List.map_congr_left ?_
    intro q hq
    have hq2 := List.mem_filter.mp hq
    have hqr : q.request_id ≠ r.request_id := by
      intro habs
      rw [habs] at hq2
      simp at hq2
    have hmem : q ∈ reqs := hperm.mem_iff.mp hq2.1
    have := hagree q hmem hqr
    simp [execute_request, this]

/-- Witness for C8: in a two-request batch where request "a" raises and
request "b" succeeds with response 7, completed in reverse order, the
result still records exactly the outcome `("b", some 7, none)` under
identifier "b" — the failure of "a" does not disturb it. -/
theorem c8_batch_outcomes_witness :
    (batch_requests
        (fun r => if r.request_id == "a" then Except.error "boom"
                  else Except.ok (7 : Nat))
        [⟨"u", "b"⟩, ⟨"u", "a"⟩]).filter (fun o => o.1 == "b") =
      [("b", some 7, none)] := by
  have h := (c8_batch_outcomes String Nat
      (fun r => if r.request_id == "a" then Except.error "boom"
                else Except.ok (7 : Nat))
      [⟨"u", "a"⟩, ⟨"u", "b"⟩] [⟨"u", "b"⟩, ⟨"u", "a"⟩]
      (by decide) (by decide)).1 ⟨"u", "b"⟩ (by decide)
  simpa [execute_request] using h

/-- C9: pagination failure fallback never raises.  (i) On a cache miss,
a network error or a response-decode error makes `fetch_data` return
`none` (the exceptions are caught).  (ii) If the first failing batch of
`fetch_nested_data`'s pagination loop is the one at offset `k·L` (all
earlier batches succeed), the remaining batches are abandoned and the
items accumulated so far — the first `k·L` items — are returned as a
partial result.  (iii) The processor's per-field completion substitutes
the initial inline data when the complete fetch returned `none`. -/
theorem c9_failure_fallback (α γ : Type) (sz : γ → Nat)
    (has_errors : γ → Bool) :
    (∀ (cache : LRUCache γ) (now : ℚ) (key : String) (paginate : Bool),
        (cache.get now key).1 = none →
        (fetch_data sz has_errors cache now key paginate .netError).1 = none ∧
        (fetch_data sz has_errors cache now key paginate .decodeError).1 = none) ∧
    (∀ (items : List α) (L k : Nat) (fails : Nat → Bool), 0 < L → 1 ≤ k →
        (∀ j, 1 ≤ j → j < k → fails (j * L) = false) → fails (k * L) = true →
        k * L ≤ items.length →
        (fetch_nested_data .ok fails items L).1 = some (items.take (k * L))) ∧
    (∀ initial : List α, resolve_nested_field initial none = initial) := by
  refine ⟨?_, ?_, ?_⟩
  · intro cache now key paginate hmiss
    have hp : cache.get now key = (none, (cache.get now key).2) :=
      Prod.ext hmiss rfl
    constructor
    · simp only [fetch_data]
      rw [hp]
    · simp only [fetch_data]
      rw [hp]
  · intro items L k fails hL hk hok hfail hle
    have hLn : L ≤ items.length :=
      le_trans (Nat.le_mul_of_pos_left L (by omega)) hle
    have hinit : (batch_at items 0 L).length = L := by
      have := batch_at_length items 0 L
      omega
    have harith : L + (k - 1) * L = k * L := by
      have hk1 : k - 1 + 1 = k := by omega
      calc L + (k - 1) * L = ((k - 1) + 1) * L := by ring
        _ = k * L := by rw [hk1]
    have hrec := nested_loop_first_fail items L hL fails (k - 1)
      (items.length + 1) L (by omega)
      (fun j hj => by
        have harith2 : L + j * L = (j + 1) * L := by ring
        rw [harith2]
        exact hok (j + 1) (by omega) (by omega))
      (by rw [harith]; exact hfail)
      (by omega)
    rw [fetch_nested_data, if_pos hinit]
    show some (batch_at items 0 L ++
        (nested_loop fails items L (items.length + 1) L).1) = _
    rw [hrec]
    have hsplit := take_add_split items L ((k - 1) * L)
    rw [batch_at, List.drop_zero, ← hsplit, harith]
  · intro initial
    rfl

/-- Witness for C9: a mid-pagination failure at offset 2 (with limit 2
over a 5-item field) returns the partial result `[0, 1]`; a fetch miss
with a network error returns `none`; a `none` complete fetch falls back
to the inline data. -/
theorem c9_failure_fallback_witness :
    (fetch_data (fun _ => 1) (fun _ => false)
        (⟨10, none, [], 0, 100⟩ : LRUCache Nat) 0 "key" true .netError).1 =
      none ∧
    (fetch_nested_data .ok (fun o => o == 2) (List.range 5) 2).1 =
      some [0, 1] ∧
    resolve_nested_field ([3] : List Nat) none = [3] := by
  have h1 := ((c9_failure_fallback Nat Nat (fun _ => 1) (fun _ => false)).1
    ⟨10, none, [], 0, 100⟩ 0 "key" true (by decide)).1
  have h2 := (c9_failure_fallback Nat Nat (fun _ => 1) (fun _ => false)).2.1
    (List.range 5) 2 1 (fun o => o == 2) (by decide) (by decide)
    (fun j h1 h2 => by omega) (by decide) (by decide)
  refine ⟨h1, ?_, rfl⟩
  simpa using h2

theorem put_on_empty (sz : α → Nat) (ms : Nat) (dttl : Option ℚ) (mb : Nat)
    (cz : Int) (now : ℚ) (key : String) (value : α) (ttl : ℚ)
    (hms : 1 < ms) (hsz : sz value ≤ mb * 1024 * 1024) (hcz : cz ≤ 0) :
    LRUCache.put sz ⟨ms, dttl, [], cz, mb⟩ now key value (some ttl) =
      (true, ⟨ms, dttl, [(key, ⟨value, now, 0, now, some ttl, sz value⟩)],
        cz + (sz value : Int), mb⟩) := by
  simp only [LRUCache.put, LRUCache.remove_entry, List.lookup_nil]
  rw [if_neg (by omega)]
  simp only [List.nil_append, LRUCache.evict_lru]
  rw [evict_lru_list, if_neg (by simp; omega)]
  simp only [LRUCache.evict_by_memory]
  rw [evict_memory_list, if_neg (by omega)]

theorem get_single_live (ms : Nat) (dttl : Option ℚ) (mb : Nat) (cz : Int)
    (key : String) (e : CacheEntry α) (now : ℚ)
    (hexp : e.is_expired now = false) :
    (⟨ms, dttl, [(key, e)], cz, mb⟩ : LRUCache α).get now key =
      (some e.value,
       ⟨ms, dttl,
        [(key, ⟨e.value, e.timestamp, e.access_count + 1, now, e.ttl,
          e.size_bytes⟩)], cz, mb⟩) := by
  simp [LRUCache.get, LRUCache.evict_expired, hexp, List.filter]

theorem get_single_dead (ms : Nat) (dttl : Option ℚ) (mb : Nat) (cz : Int)
    (key : String) (e : CacheEntry α) (now : ℚ)
    (hexp : e.is_expired now = true) :
    (⟨ms, dttl, [(key, e)], cz, mb⟩ : LRUCache α).get now key =
      (none, ⟨ms, dttl, [], cz - (e.size_bytes : Int), mb⟩) := by
  simp [LRUCache.get, LRUCache.evict_expired, hexp, List.filter]

theorem get_empty (ms : Nat) (dttl : Option ℚ) (mb : Nat) (cz : Int)
    (now : ℚ) (key : String) :
    (⟨ms, dttl, [], cz, mb⟩ : LRUCache α).get now key =
      (none, ⟨ms, dttl, [], cz - 0, mb⟩) := rfl

theorem get_valid_token_hit (sz : TokenData → Nat) (net : ℚ → String × ℚ)
    (now : ℚ) (ms : OAuthState) (ac : LRUCache TokenData) (td : TokenData)
    (hhit : (ac.get now "oauth_token").1 = some td)
    (hfresh : now + 30 < td.expiration_time) :
    get_valid_token sz net now ms ac =
      (some td.token, ⟨some td.token, td.expiration_time⟩,
       (ac.get now "oauth_token").2, 0) := by
  simp only [get_valid_token, hhit]
  rw [if_pos hfresh]

theorem get_valid_token_memory (sz : TokenData → Nat) (net : ℚ → String × ℚ)
    (now : ℚ) (ms : OAuthState) (ac : LRUCache TokenData) (t : String)
    (hstale : ∀ td, (ac.get now "oauth_token").1 = some td →
      td.expiration_time ≤ now + 30)
    (hmem : ms.token = some t) (hvalid : now < ms.expiration_time - 30) :
    get_valid_token sz net now ms ac =
      (some t, ms, (ac.get now "oauth_token").2, 0) := by
  have hfh : (match (ac.get now "oauth_token").1 with
      | some td => if now + 30 < td.expiration_time then some td else none
      | none => none) = (none : Option TokenData) := by
    cases hh : (ac.get now "oauth_token").1 with
    | none => rfl
    | some td =>
      simp only
      rw [if_neg (not_lt.mpr (hstale td hh))]
  have hcond : ¬(ms.token = none ∨ ms.expiration_time - 30 ≤ now) := by
    rw [hmem]
    push_neg
    exact ⟨by simp, hvalid⟩
  simp only [get_valid_token, hfh]
  rw [if_neg hcond, hmem]

theorem get_valid_token_fetch (sz : TokenData → Nat) (net : ℚ → String × ℚ)
    (now : ℚ) (ms : OAuthState) (ac : LRUCache TokenData)
    (hstale : ∀ td, (ac.get now "oauth_token").1 = some td →
      td.expiration_time ≤ now + 30)
    (hcond : ms.token = none ∨ ms.expiration_time - 30 ≤ now) :
    get_valid_token sz net now ms ac =
      (some (net now).1, ⟨some (net now).1, now + (net now).2⟩,
       (((ac.get now "oauth_token").2).put sz now "oauth_token"
         ⟨(net now).1, now + (net now).2⟩
         (some ((net now).2 - 30 - 10))).2, 1) := by
  have hfh : (match (ac.get now "oauth_token").1 with
      | some td => if now + 30 < td.expiration_time then some td else none
      | none => none) = (none : Option TokenData) := by
    cases hh : (ac.get now "oauth_token").1 with
    | none => rfl
    | some td =>
      simp only
      rw [if_neg (not_lt.mpr (hstale td hh))]
  simp only [get_valid_token, hfh]
  rw [if_pos hcond]

/-- Counterexample to C7 as stated: the "otherwise" branch is wrong.
With an empty credential cache region (no cached token at all) but an
in-memory token "tok" expiring at time 100, a call at time 50 (before
expiry minus the 30-second buffer) makes no network call and returns the
in-memory token — whereas the claim says that without a fresh cached
token the endpoint is called, the new token stored and returned. -/
theorem c7_cex :
    (⟨10, none, [], 0, 100⟩ : LRUCache TokenData).cache = [] ∧
    (get_valid_token (fun _ => 1) (fun _ => ("ntok", 1000)) 50
        ⟨some "tok", 100⟩ ⟨10, none, [], 0, 100⟩).2.2.2 = 0 ∧
    (get_valid_token (fun _ => 1) (fun _ => ("ntok", 1000)) 50
        ⟨some "tok", 100⟩ ⟨10, none, [], 0, 100⟩).1 = some "tok" := by
  have h := get_valid_token_memory (fun _ => 1) (fun _ => ("ntok", 1000)) 50
      ⟨some "tok", 100⟩ ⟨10, none, [], 0, 100⟩ "tok"
      (by intro td hh; simp [LRUCache.get, LRUCache.evict_expired] at hh)
      rfl (by norm_num)
  exact ⟨rfl, by rw [h], by rw [h]⟩

/-- C7, amended: (i) when the credential cache region returns a token
whose expiry exceeds `now` plus the 30-second buffer, it is adopted and
returned with no network call; (ii) when the region returns no fresh
token but the in-memory token is still more than 30 seconds from expiry,
the in-memory token is returned with no network call (this branch is the
correction to the claim's "otherwise it calls the token endpoint");
(iii) otherwise the endpoint is called exactly once, the new token is
stored in memory and in the region with TTL `expires_in − 30 − 10`, and
returned; (iv) consequently, starting fresh, the first call makes one
network call, a second call at any time before expiry minus buffer makes
none (served either from the region or from memory), and a call at or
after expiry minus buffer makes exactly one more. -/
theorem c7_token_caching (sz : TokenData → Nat) (net : ℚ → String × ℚ) :
    (∀ (now : ℚ) (ms : OAuthState) (ac : LRUCache TokenData) (td : TokenData),
        (ac.get now "oauth_token").1 = some td →
        now + 30 < td.expiration_time →
        get_valid_token sz net now ms ac =
          (some td.token, ⟨some td.token, td.expiration_time⟩,
           (ac.get now "oauth_token").2, 0)) ∧
    (∀ (now : ℚ) (ms : OAuthState) (ac : LRUCache TokenData) (t : String),
        (∀ td, (ac.get now "oauth_token").1 = some td →
          td.expiration_time ≤ now + 30) →
        ms.token = some t → now < ms.expiration_time - 30 →
        get_valid_token sz net now ms ac =
          (some t, ms, (ac.get now "oauth_token").2, 0)) ∧
    (∀ (now : ℚ) (ms : OAuthState) (ac : LRUCache TokenData),
        (∀ td, (ac.get now "oauth_token").1 = some td →
          td.expiration_time ≤ now + 30) →
        (ms.token = none ∨ ms.expiration_time - 30 ≤ now) →
        get_valid_token sz net now ms ac =
          (some (net now).1, ⟨some (net now).1, now + (net now).2⟩,
           (((ac.get now "oauth_token").2).put sz now "oauth_token"
             ⟨(net now).1, now + (net now).2⟩
             (some ((net now).2 - 30 - 10))).2, 1)) ∧
    (∀ (ms0 : Nat) (dttl : Option ℚ) (mb : Nat) (t0 t1 t2 E : ℚ)
        (tok : String),
        1 < ms0 → (∀ td, sz td ≤ mb * 1024 * 1024) →
        net t0 = (tok, E) → 40 < E → t0 ≤ t1 → t1 < t0 + E - 30 →
        t0 + E - 30 ≤ t2 →
        (token_calls sz net ms0 dttl mb t0 t1 t2).1.2.2.2 = 1 ∧
        (token_calls sz net ms0 dttl mb t0 t1 t2).1.1 = some tok ∧
        (token_calls sz net ms0 dttl mb t0 t1 t2).2.1.2.2.2 = 0 ∧
        (token_calls sz net ms0 dttl mb t0 t1 t2).2.1.1 = some tok ∧
        (token_calls sz net ms0 dttl mb t0 t1 t2).2.2.2.2.2 = 1) := by
  refine ⟨get_valid_token_hit sz net, get_valid_token_memory sz net,
    get_valid_token_fetch sz net, ?_⟩
  intro ms0 dttl mb t0 t1 t2 E tok hms hszb hnet hE ht01 ht1 ht2
  have h1 := get_valid_token_fetch sz net t0 ⟨none, 0⟩ ⟨ms0, dttl, [], 0, mb⟩
    (by intro td hh; rw [get_empty] at hh; simp at hh)
    (Or.inl rfl)
  simp only [get_empty, hnet] at h1
  have hput1 := put_on_empty sz ms0 dttl mb (0 - 0) t0 "oauth_token"
    ⟨tok, t0 + E⟩ (E - 30 - 10) hms (hszb _) (by norm_num)
  simp only [hput1] at h1
  simp only [token_calls]
  by_cases hcase : (E - 30 - 10 : ℚ) < t1 - t0
  · -- region entry already TTL-expired at t1; served from memory
    have hexp1 : (⟨⟨tok, t0 + E⟩, t0, 0, t0, some (E - 30 - 10),
        sz ⟨tok, t0 + E⟩⟩ : CacheEntry TokenData).is_expired t1 = true := by
      simp only [CacheEntry.is_expired, decide_eq_true_eq]
      exact hcase
    have hg1 := get_single_dead ms0 dttl mb (0 - 0 + (sz (⟨tok, t0 + E⟩ : TokenData) : Int))
      "oauth_token" (⟨⟨tok, t0 + E⟩, t0, 0, t0, some (E - 30 - 10),
        sz ⟨tok, t0 + E⟩⟩ : CacheEntry TokenData) t1 hexp1
    have h2 := get_valid_token_memory sz net t1 ⟨some tok, t0 + E⟩
      ⟨ms0, dttl, [("oauth_token", ⟨⟨tok, t0 + E⟩, t0, 0, t0,
        some (E - 30 - 10), sz ⟨tok, t0 + E⟩⟩)],
        0 - 0 + (sz (⟨tok, t0 + E⟩ : TokenData) : Int), mb⟩ tok
      (by intro td hh; rw [hg1] at hh; simp at hh)
      rfl ht1
    simp only [hg1] at h2
    have h3 := get_valid_token_fetch sz net t2 ⟨some tok, t0 + E⟩
      ⟨ms0, dttl, [], 0 - 0 + (sz (⟨tok, t0 + E⟩ : TokenData) : Int) -
        (sz (⟨tok, t0 + E⟩ : TokenData) : Int), mb⟩
      (by intro td hh; rw [get_empty] at hh; simp at hh)
      (Or.inr ht2)
    rw [h1]
    dsimp only
    rw [h2]
    dsimp only
    rw [h3]
    exact ⟨rfl, rfl, rfl, rfl, rfl⟩
  · -- region entry still live at t1; served from the region
    have hexp1 : (⟨⟨tok, t0 + E⟩, t0, 0, t0, some (E - 30 - 10),
        sz ⟨tok, t0 + E⟩⟩ : CacheEntry TokenData).is_expired t1 = false := by
      simp only [CacheEntry.is_expired, decide_eq_false_iff_not]
      exact hcase
    have hg1 := get_single_live ms0 dttl mb (0 - 0 + (sz (⟨tok, t0 + E⟩ : TokenData) : Int))
      "oauth_token" (⟨⟨tok, t0 + E⟩, t0, 0, t0, some (E - 30 - 10),
        sz ⟨tok, t0 + E⟩⟩ : CacheEntry TokenData) t1 hexp1
    have h2 := get_valid_token_hit sz net t1 ⟨some tok, t0 + E⟩
      ⟨ms0, dttl, [("oauth_token", ⟨⟨tok, t0 + E⟩, t0, 0, t0,
        some (E - 30 - 10), sz ⟨tok, t0 + E⟩⟩)],
        0 - 0 + (sz (⟨tok, t0 + E⟩ : TokenData) : Int), mb⟩ ⟨tok, t0 + E⟩
      (by rw [hg1]) (by show t1 + 30 < t0 + E; linarith)
    simp only [hg1] at h2
    have hexp2 : (⟨⟨tok, t0 + E⟩, t0, 0 + 1, t1, some (E - 30 - 10),
        sz ⟨tok, t0 + E⟩⟩ : CacheEntry TokenData).is_expired t2 = true := by
      simp only [CacheEntry.is_expired, decide_eq_true_eq]
      linarith
    have hg2 := get_single_dead ms0 dttl mb (0 - 0 + (sz (⟨tok, t0 + E⟩ : TokenData) : Int))
      "oauth_token" (⟨⟨tok, t0 + E⟩, t0, 0 + 1, t1, some (E - 30 - 10),
        sz ⟨tok, t0 + E⟩⟩ : CacheEntry TokenData) t2 hexp2
    have h3 := get_valid_token_fetch sz net t2 ⟨some tok, t0 + E⟩
      ⟨ms0, dttl, [("oauth_token", ⟨⟨tok, t0 + E⟩, t0, 0 + 1, t1,
        some (E - 30 - 10), sz ⟨tok, t0 + E⟩⟩)],
        0 - 0 + (sz (⟨tok, t0 + E⟩ : TokenData) : Int), mb⟩
      (by intro td hh; rw [hg2] at hh; simp at hh)
      (Or.inr ht2)
    rw [h1]
    dsimp only
    rw [h2]
    dsimp only
    rw [h3]
    exact ⟨rfl, rfl, rfl, rfl, rfl⟩

/-- Witness for C7 amended: concrete three-call scenario (token "tok",
`expires_in` 100, calls at times 0, 50 and 70): network calls 1, 0, 1. -/
theorem c7_token_caching_witness :
    (token_calls (fun _ => 1) (fun _ => ("tok", 100)) 10 none 100
      0 50 70).1.2.2.2 = 1 ∧
    (token_calls (fun _ => 1) (fun _ => ("tok", 100)) 10 none 100
      0 50 70).2.1.2.2.2 = 0 ∧
    (token_calls (fun _ => 1) (fun _ => ("tok", 100)) 10 none 100
      0 50 70).2.2.2.2.2 = 1 := by
  have h := (c7_token_caching (fun _ => 1) (fun _ => ("tok", 100))).2.2.2
    10 none 100 0 50 70 100 "tok" (by norm_num) (fun td => by norm_num)
    rfl (by norm_num) (by norm_num) (by norm_num) (by norm_num)
  exact ⟨h.1, h.2.2.1, h.2.2.2.2⟩

end Collibra
